import Mathlib

/-!
Verification of the Japanese block-art renderer (src/japanese-renderer.ts and
the ink logo helper).  JavaScript strings are modelled as Lean `String`
(sequences of Unicode scalar values); `Array.from(text)` corresponds to the
list of scalars `List Char`.  Machine numbers are modelled as `Nat`.
JavaScript exceptions are modelled by `Option`: a function that can throw
returns `none` on the thrown path.  The external conversion libraries
(`jconv`, `encoding-japanese`), the gradient library and the display-width
collaborator are not part of this repository; they are modelled as explicit
oracle parameters (`JpLibs`, `GradientLib`, a width function), exactly as the
specification treats them (supplied pure collaborators).
-/

namespace OML

/-- JavaScript whitespace predicate (the character class trimmed by
`String.prototype.trim`). -/
def jsIsWs (c : Char) : Bool :=
  c = ' ' || c = '\t' || c = '\n' ||
  c.toNat = 11 || c.toNat = 12 || c.toNat = 13 ||
  c.toNat = 0xA0 || c.toNat = 0x1680 ||
  (0x2000 ≤ c.toNat && c.toNat ≤ 0x200A) ||
  c.toNat = 0x2028 || c.toNat = 0x2029 || c.toNat = 0x202F ||
  c.toNat = 0x205F || c.toNat = 0x3000 || c.toNat = 0xFEFF

/-- Model of JavaScript `s.trim()`. -/
def jsTrim (s : String) : String :=
  String.mk (((s.data.dropWhile jsIsWs).reverse.dropWhile jsIsWs).reverse)

/-- Model of JavaScript `ch.repeat(n)` for a single character. -/
def strRep (n : Nat) (c : Char) : String :=
  String.mk (List.replicate n c)

/-- The UTF-16 code units of one Unicode scalar, as produced by JavaScript
`charCodeAt` over the two positions of a surrogate pair. -/
def utf16Units (c : Char) : List Nat :=
  if c.toNat < 0x10000 then [c.toNat]
  else [0xD800 + (c.toNat - 0x10000) / 0x400, 0xDC00 + (c.toNat - 0x10000) % 0x400]

/-- JavaScript `str.charCodeAt(0)` for a one-scalar string: the scalar itself
for BMP characters, the high surrogate for supplementary-plane characters. -/
def charCodeAt0 (c : Char) : Nat :=
  if c.toNat < 0x10000 then c.toNat else 0xD800 + (c.toNat - 0x10000) / 0x400

/-- Number of UTF-16 code units of a string (JavaScript `str.length`). -/
def utf16Len (s : String) : Nat :=
  (s.data.map (fun c => if c.toNat < 0x10000 then 1 else 2)).sum

/-- Source `containsJapanese` (japanese-renderer.ts, lines 563-572):
`Array.from(text).some(char => ...)` over `char.charCodeAt(0)` range tests. -/
def containsJapanese (text : List Char) : Bool :=
  text.any fun c =>
    let code := charCodeAt0 c
    (0x3040 ≤ code && code ≤ 0x309F) ||
    (0x30A0 ≤ code && code ≤ 0x30FF) ||
    (0x4E00 ≤ code && code ≤ 0x9FFF)

/-- The property the specification states: the scalar value itself lies in one
of the three Japanese ranges. -/
def isJapaneseScalar (c : Char) : Prop :=
  (0x3040 ≤ c.toNat ∧ c.toNat ≤ 0x309F) ∨
  (0x30A0 ≤ c.toNat ∧ c.toNat ≤ 0x30FF) ∨
  (0x4E00 ≤ c.toNat ∧ c.toNat ≤ 0x9FFF)

instance (c : Char) : Decidable (isJapaneseScalar c) := by
  unfold isJapaneseScalar; infer_instance

theorem charCodeAt0_eq_of_bmp {c : Char} (h : c.toNat < 0x10000) :
    charCodeAt0 c = c.toNat := by
  simp [charCodeAt0, h]

theorem char_toNat_lt (c : Char) : c.toNat < 0x110000 := by
  rcases c.valid with h | h
  · exact Nat.lt_trans h (by norm_num)
  · exact h.2

theorem charCodeAt0_surrogate {c : Char} (h : ¬ c.toNat < 0x10000) :
    0xD800 ≤ charCodeAt0 c ∧ charCodeAt0 c ≤ 0xDBFF := by
  have hval : c.toNat < 0x110000 := char_toNat_lt c
  constructor
  · simp [charCodeAt0, h]
  · simp only [charCodeAt0, if_neg h]
    have hdiv : (c.toNat - 0x10000) / 0x400 < 0x400 := by
      apply Nat.div_lt_of_lt_mul
      omega
    omega

/-- C9 helper: the per-character test of the source agrees with the
per-scalar property of the specification. -/
theorem containsJapanese_char_iff (c : Char) :
    ((0x3040 ≤ charCodeAt0 c && charCodeAt0 c ≤ 0x309F) ||
     (0x30A0 ≤ charCodeAt0 c && charCodeAt0 c ≤ 0x30FF) ||
     (0x4E00 ≤ charCodeAt0 c && charCodeAt0 c ≤ 0x9FFF)) = true ↔
    isJapaneseScalar c := by
  by_cases h : c.toNat < 0x10000
  · rw [charCodeAt0_eq_of_bmp h]
    simp only [isJapaneseScalar, Bool.or_eq_true, Bool.and_eq_true, decide_eq_true_eq]
    omega
  · have hs := charCodeAt0_surrogate h
    constructor
    · intro hc
      exfalso
      simp only [Bool.or_eq_true, Bool.and_eq_true, decide_eq_true_eq] at hc
      omega
    · intro hc
      exfalso
      unfold isJapaneseScalar at hc
      omega

/-- C9: `containsJapanese(text)` returns true iff some character of the text
lies in the Hiragana, Katakana or CJK Unified Ideographs range, the test being
performed per Unicode scalar; in particular it is false for the empty string
and for any string made only of characters below U+3040 (ASCII/Latin). -/
theorem c9_containsJapanese_iff (text : List Char) :
    containsJapanese text = true ↔ ∃ c ∈ text, isJapaneseScalar c := by
  unfold containsJapanese
  rw [List.any_eq_true]
  constructor
  · rintro ⟨c, hc, hb⟩
    exact ⟨c, hc, (containsJapanese_char_iff c).mp hb⟩
  · rintro ⟨c, hc, hb⟩
    exact ⟨c, hc, (containsJapanese_char_iff c).mpr hb⟩

/-- C9 witness: concrete evaluations through the theorem. -/
theorem c9_witness :
    containsJapanese ['H', 'i', '世'] = true ∧ containsJapanese [] = false := by
  constructor
  · exact (c9_containsJapanese_iff ['H', 'i', '世']).mpr ⟨'世', by decide, by decide⟩
  · by_contra h
    simp only [Bool.not_eq_false] at h
    obtain ⟨c, hc, _⟩ := (c9_containsJapanese_iff []).mp h
    exact absurd hc (List.not_mem_nil c)

/-! ## Per-character block mode (`createJapaneseBlock` in the ink logo file)

The display-width collaborator (`string-width`) is external; it is modelled as
an oracle `wOr : Char → Nat`.  The source computes
`charWidth = stringWidth(char) || 1`, modelled by replacing `0` with `1`. -/

/-- The five-row segment the source emits for one character: the body of the
inner `for (row …)` loop of `createJapaneseBlock` (part_000, lines 67-80),
without the inter-character spacing. -/
def codeSeg (wOr : Char → Nat) (c : Char) (row : Nat) : String :=
  let charWidth := if wOr c = 0 then 1 else wOr c
  let blockWidth := max (charWidth * 3) 6
  if row = 0 ∨ row = 5 - 1 then strRep blockWidth '█'
  else if row = 5 / 2 then
    let padding := max 0 (blockWidth - charWidth)
    let leftPad := padding / 2
    let rightPad := padding - leftPad
    strRep leftPad '█' ++ String.mk [c] ++ strRep rightPad '█'
  else "█" ++ strRep (blockWidth - 2) ' ' ++ "█"

/-- One iteration of the outer character loop of `createJapaneseBlock`:
append the segment of this character to every row, plus the two-space separator
when the character is not the last one (`i < chars.length - 1`). -/
def cjbStep (wOr : Char → Nat) (n : Nat) (lines : List String) (ic : Nat × Char) :
    List String :=
  lines.mapIdx fun row line =>
    line ++ codeSeg wOr ic.2 row ++ (if ic.1 < n - 1 then "  " else "")

/-- Source `createJapaneseBlock` (part_000, lines 52-90): five lines
initialised empty, then every character appends its block segment row by
row. -/
def createJapaneseBlock (wOr : Char → Nat) (text : List Char) : List String :=
  text.enum.foldl (cjbStep wOr text.length) (List.replicate 5 "")

/-- Join a list of strings with a separator (used to state the claimed
rule that exactly two blank columns separate adjacent characters). -/
def joinSep (sep : String) : List String → String
  | [] => ""
  | [x] => x
  | x :: y :: xs => x ++ sep ++ joinSep sep (y :: xs)

theorem mapIdx_mapIdx (l : List α) (f : Nat → α → β) (g : Nat → β → γ) :
    (l.mapIdx f).mapIdx g = l.mapIdx (fun i a => g i (f i a)) := by
  apply List.ext_getElem?
  intro i
  simp only [List.getElem?_mapIdx]
  cases l[i]? <;> rfl

theorem mapIdx_replicate (k : Nat) (a : α) (f : Nat → α → β) :
    (List.replicate k a).mapIdx f = (List.range k).map (fun i => f i a) := by
  apply List.ext_getElem?
  intro i
  simp only [List.getElem?_mapIdx, List.getElem?_replicate, List.getElem?_map]
  by_cases h : i < k
  · simp [h, List.getElem?_range, h]
  · have h1 : (List.range k)[i]? = none := List.getElem?_eq_none (by simpa using h)
    simp [h, h1]

theorem mapIdx_congr (l : List α) (f g : Nat → α → β) (h : ∀ i a, f i a = g i a) :
    l.mapIdx f = l.mapIdx g := by
  have : f = g := funext fun i => funext fun a => h i a
  rw [this]

theorem joinSep_cons (sep : String) (x : String) (xs : List String) :
    joinSep sep (x :: xs) = x ++ (if xs = [] then "" else sep ++ joinSep sep xs) := by
  cases xs with
  | nil => simp [joinSep]
  | cons y ys => simp [joinSep, String.append_assoc]

/-- Unrolling of the character loop of `createJapaneseBlock`: processing the
suffix `cs` starting at absolute index `j` (with `n` total characters)
appends, to each row, the segments of the suffix joined by the two-space
separator. -/
theorem cjb_fold (wOr : Char → Nat) (n : Nat) :
    ∀ (cs : List Char) (j : Nat) (lines : List String), j + cs.length = n →
      (List.enumFrom j cs).foldl (cjbStep wOr n) lines
        = lines.mapIdx (fun r l => l ++ joinSep "  " (cs.map (fun c => codeSeg wOr c r))) := by
  intro cs
  induction cs with
  | nil =>
    intro j lines _
    simp only [List.enumFrom, List.foldl_nil, List.map_nil, joinSep, String.append_empty]
    symm
    apply List.ext_getElem?
    intro i
    simp only [List.getElem?_mapIdx]
    cases lines[i]? <;> rfl
  | cons c cs ih =>
    intro j lines hj
    rw [List.enumFrom_cons, List.foldl_cons]
    rw [ih (j + 1) _ (by simpa [Nat.add_comm, Nat.add_left_comm] using hj)]
    unfold cjbStep
    rw [mapIdx_mapIdx]
    apply mapIdx_congr
    intro r l
    cases cs with
    | nil =>
      have hlt : ¬ j < n - 1 := by simp at hj; omega
      simp [hlt, joinSep, String.append_assoc]
    | cons d ds =>
      have hlt : j < n - 1 := by simp at hj; omega
      simp only [List.map_cons, joinSep_cons, if_pos hlt]
      simp [String.append_assoc]

/-- Row-major characterization of `createJapaneseBlock`: five rows, each the
two-space join of the per-character segments. -/
theorem createJapaneseBlock_rows (wOr : Char → Nat) (text : List Char) :
    createJapaneseBlock wOr text
      = (List.range 5).map (fun r => joinSep "  " (text.map (fun c => codeSeg wOr c r))) := by
  unfold createJapaneseBlock
  rw [show text.enum = List.enumFrom 0 text from rfl]
  rw [cjb_fold wOr text.length text 0 _ (by omega)]
  rw [mapIdx_replicate]
  apply List.map_congr_left
  intro i _
  exact String.empty_append _

/-- The block segment as the specification describes it: block width
`max(w*3, 6)` for display width `w`, solid ink bars on rows 0 and 4, the
literal character on the middle row with the odd padding cell on the right,
ink-bordered blank rows elsewhere. -/
def charSeg (wOr : Char → Nat) (c : Char) (row : Nat) : String :=
  let w := wOr c
  let blockWidth := max (w * 3) 6
  if row = 0 ∨ row = 4 then strRep blockWidth '█'
  else if row = 2 then
    let padding := blockWidth - w
    strRep (padding / 2) '█' ++ String.mk [c] ++ strRep (padding - padding / 2) '█'
  else "█" ++ strRep (blockWidth - 2) ' ' ++ "█"

theorem codeSeg_eq_charSeg (wOr : Char → Nat) (c : Char) (row : Nat)
    (h : 1 ≤ wOr c) : codeSeg wOr c row = charSeg wOr c row := by
  unfold codeSeg charSeg
  have h0 : ¬ wOr c = 0 := by omega
  simp [h0, Nat.zero_max]

/-- C5: in per-character block mode, each character of display width `w`
yields a block of width `max(w*3, 6)` and exactly 5 rows: rows 0 and 4 are
solid ink bars, the middle row embeds the literal character with the odd
padding cell on the right, the other rows are ink-bordered with interior
blanks, and exactly two blank columns separate adjacent characters.  The
display-width collaborator is assumed to return positive widths, as its
interface specifies. -/
theorem c5_block_layout (wOr : Char → Nat) (text : List Char)
    (hw : ∀ c ∈ text, 1 ≤ wOr c) :
    createJapaneseBlock wOr text
      = (List.range 5).map (fun r => joinSep "  " (text.map (fun c => charSeg wOr c r))) := by
  rw [createJapaneseBlock_rows]
  apply List.map_congr_left
  intro r _
  congr 1
  apply List.map_congr_left
  intro c hc
  exact codeSeg_eq_charSeg wOr c r (hw c hc)

/-- C5 witness: a width-2 character renders as a 5-row block of width 6 with
the character centred in the middle row. -/
theorem c5_witness :
    createJapaneseBlock (fun c => if c = '日' then 2 else 1) ['日']
      = ["██████", "█    █", "██日██", "█    █", "██████"] := by
  rw [c5_block_layout (fun c => if c = '日' then 2 else 1) ['日'] (by decide)]
  decide

/-- Display width of a row, as the sum of the width collaborator over its
characters. -/
def dispWidth (wOr : Char → Nat) (s : String) : Nat :=
  (s.data.map wOr).sum

theorem utf16Len_append (a b : String) :
    utf16Len (a ++ b) = utf16Len a + utf16Len b := by
  simp [utf16Len, String.data_append]

theorem utf16Len_strRep (n : Nat) (ch : Char) (h : ch.toNat < 0x10000) :
    utf16Len (strRep n ch) = n := by
  simp [utf16Len, strRep, List.map_replicate, h]

theorem dispWidth_append (wOr : Char → Nat) (a b : String) :
    dispWidth wOr (a ++ b) = dispWidth wOr a + dispWidth wOr b := by
  simp [dispWidth, String.data_append]

theorem dispWidth_strRep (wOr : Char → Nat) (n : Nat) (ch : Char) :
    dispWidth wOr (strRep n ch) = n * wOr ch := by
  simp [dispWidth, strRep, List.map_replicate, List.sum_replicate, smul_eq_mul]

/-- The block of a single character, row by row. -/
theorem createJapaneseBlock_single (wOr : Char → Nat) (c : Char) :
    createJapaneseBlock wOr [c]
      = [codeSeg wOr c 0, codeSeg wOr c 1, codeSeg wOr c 2,
         codeSeg wOr c 3, codeSeg wOr c 4] := by
  rw [createJapaneseBlock_rows]
  rfl

/-- The five segment shapes of one character, under a positive display
width. -/
theorem codeSeg_shapes (wOr : Char → Nat) (c : Char) (w : Nat)
    (h1 : wOr c = w) (hw : 1 ≤ w) :
    codeSeg wOr c 0 = strRep (max (w * 3) 6) '█' ∧
    codeSeg wOr c 1 = "█" ++ strRep (max (w * 3) 6 - 2) ' ' ++ "█" ∧
    codeSeg wOr c 2 = strRep ((max (w * 3) 6 - w) / 2) '█' ++ String.mk [c]
      ++ strRep ((max (w * 3) 6 - w) - (max (w * 3) 6 - w) / 2) '█' ∧
    codeSeg wOr c 3 = "█" ++ strRep (max (w * 3) 6 - 2) ' ' ++ "█" ∧
    codeSeg wOr c 4 = strRep (max (w * 3) 6) '█' := by
  have hw0 : ¬ w = 0 := by omega
  unfold codeSeg
  rw [h1]
  norm_num [hw0, Nat.zero_max]

/-- C10 counterexample: for the supplementary-plane character U+1F600
(display width 2 under the width collaborator, two UTF-16 code units), the
middle row of its block has exactly as many code units as the border rows,
not fewer. -/
theorem c10_counterexample :
    (fun c => if c = '😀' then 2 else 1) '😀' = 2 ∧
    utf16Len ((createJapaneseBlock (fun c => if c = '😀' then 2 else 1) ['😀']).getD 2 "")
      = utf16Len ((createJapaneseBlock (fun c => if c = '😀' then 2 else 1) ['😀']).getD 0 "") ∧
    ¬ (utf16Len ((createJapaneseBlock (fun c => if c = '😀' then 2 else 1) ['😀']).getD 2 "") <
       utf16Len ((createJapaneseBlock (fun c => if c = '😀' then 2 else 1) ['😀']).getD 0 "")) := by
  refine ⟨by decide, by decide, by decide⟩

/-- C10 amended: for a basic-multilingual-plane character (one UTF-16 code
unit) of display width at least 2, the middle row of its block has fewer
UTF-16 code units than both border rows, while all five rows have the same
display width, namely the block width `max(w*3, 6)` (the ink and blank cells
having display width 1). -/
theorem c10_amended_row_lengths (wOr : Char → Nat) (c : Char) (w : Nat)
    (h1 : wOr c = w) (h2 : 2 ≤ w) (h3 : c.toNat < 0x10000)
    (hInk : wOr '█' = 1) (hSp : wOr ' ' = 1) :
    (utf16Len ((createJapaneseBlock wOr [c]).getD 2 "")
       < utf16Len ((createJapaneseBlock wOr [c]).getD 0 "") ∧
     utf16Len ((createJapaneseBlock wOr [c]).getD 2 "")
       < utf16Len ((createJapaneseBlock wOr [c]).getD 4 "")) ∧
    ∀ r ∈ List.range 5,
      dispWidth wOr ((createJapaneseBlock wOr [c]).getD r "") = max (w * 3) 6 := by
  obtain ⟨e0, e1, e2, e3, e4⟩ := codeSeg_shapes wOr c w h1 (by omega)
  rw [createJapaneseBlock_single]
  have hW3 : w * 3 ≤ max (w * 3) 6 := le_max_left _ _
  have hW6 : 6 ≤ max (w * 3) 6 := le_max_right _ _
  have hu0 : utf16Len (codeSeg wOr c 0) = max (w * 3) 6 := by
    rw [e0, utf16Len_strRep _ _ (by decide)]
  have hu4 : utf16Len (codeSeg wOr c 4) = max (w * 3) 6 := by
    rw [e4, utf16Len_strRep _ _ (by decide)]
  have hu2 : utf16Len (codeSeg wOr c 2) = (max (w * 3) 6 - w) + 1 := by
    rw [e2, utf16Len_append, utf16Len_append, utf16Len_strRep _ _ (by decide),
      utf16Len_strRep _ _ (by decide)]
    have hc1 : utf16Len (String.mk [c]) = 1 := by simp [utf16Len, h3]
    rw [hc1]
    omega
  have hd0 : dispWidth wOr (codeSeg wOr c 0) = max (w * 3) 6 := by
    rw [e0, dispWidth_strRep, hInk, Nat.mul_one]
  have hd4 : dispWidth wOr (codeSeg wOr c 4) = max (w * 3) 6 := by
    rw [e4, dispWidth_strRep, hInk, Nat.mul_one]
  have hdInkCell : dispWidth wOr "█" = 1 := by
    show (("█" : String).data.map wOr).sum = 1
    rw [show ("█" : String).data = ['█'] from rfl]
    simp [hInk]
  have hd13 : dispWidth wOr ("█" ++ strRep (max (w * 3) 6 - 2) ' ' ++ "█")
      = max (w * 3) 6 := by
    rw [dispWidth_append, dispWidth_append, dispWidth_strRep, hSp, hdInkCell]
    omega
  have hd2 : dispWidth wOr (codeSeg wOr c 2) = max (w * 3) 6 := by
    rw [e2, dispWidth_append, dispWidth_append, dispWidth_strRep, dispWidth_strRep,
      hInk]
    have hc1 : dispWidth wOr (String.mk [c]) = w := by simp [dispWidth, h1]
    rw [hc1]
    omega
  refine ⟨⟨?_, ?_⟩, ?_⟩
  · show utf16Len (codeSeg wOr c 2) < utf16Len (codeSeg wOr c 0)
    rw [hu2, hu0]
    omega
  · show utf16Len (codeSeg wOr c 2) < utf16Len (codeSeg wOr c 4)
    rw [hu2, hu4]
    omega
  · intro r hr
    have hr5 : r < 5 := by simpa using hr
    interval_cases r
    · exact hd0
    · show dispWidth wOr (codeSeg wOr c 1) = max (w * 3) 6
      rw [e1]
      exact hd13
    · exact hd2
    · show dispWidth wOr (codeSeg wOr c 3) = max (w * 3) 6
      rw [e3]
      exact hd13
    · exact hd4

/-- C10 amended witness: concrete BMP width-2 character, with the code-unit
inequality against border row 0 and the display width of the blank-interior
row 1. -/
theorem c10_witness :
    utf16Len ((createJapaneseBlock (fun c => if c = '日' then 2 else 1) ['日']).getD 2 "")
      < utf16Len ((createJapaneseBlock (fun c => if c = '日' then 2 else 1) ['日']).getD 0 "") ∧
    dispWidth (fun c => if c = '日' then 2 else 1)
        ((createJapaneseBlock (fun c => if c = '日' then 2 else 1) ['日']).getD 1 "")
      = max (2 * 3) 6 :=
  ⟨(c10_amended_row_lengths (fun c => if c = '日' then 2 else 1) '日' 2 (by decide)
      (by decide) (by decide) (by decide) (by decide)).1.1,
   (c10_amended_row_lengths (fun c => if c = '日' then 2 else 1) '日' 2 (by decide)
      (by decide) (by decide) (by decide) (by decide)).2 1 (by decide)⟩

/-! ## The Japanese renderer (japanese-renderer.ts) -/

/-- Source `getJapaneseCharPattern` (japanese-renderer.ts, lines 175-425):
the hand-authored 10-row pattern table, with the generic bordered block
(embedding the literal character) for characters not in the table. -/
def getJapaneseCharPattern (c : Char) : List String :=
  if c = 'あ' then
    ["  ████████  ",
     " █        █ ",
     "█   ████   █",
     "█  █    █  █",
     "█  █ ████  █",
     "█  █ █  █  █",
     "█  █ ████  █",
     "█          █",
     " █        █ ",
     "  ████████  "]
  else if c = 'い' then
    ["  ████████  ",
     " █        █ ",
     "█    ██    █",
     "█    ██    █",
     "█    ██    █",
     "█  ██████  █",
     "█  ██  ██  █",
     "█    ██    █",
     " █        █ ",
     "  ████████  "]
  else if c = 'う' then
    ["  ████████  ",
     " █        █ ",
     "█  ██████  █",
     "█    ██    █",
     "█    ██    █",
     "█  ██████  █",
     "█  ██  ██  █",
     "█  ██████  █",
     " █        █ ",
     "  ████████  "]
  else if c = 'え' then
    ["  ████████  ",
     " █        █ ",
     "█ ████████ █",
     "█ ██    ██ █",
     "█ ████████ █",
     "█ ██    ██ █",
     "█ ████████ █",
     "█          █",
     " █        █ ",
     "  ████████  "]
  else if c = 'お' then
    ["  ████████  ",
     " █        █ ",
     "█ ██████ █ █",
     "█ ██  ██ █ █",
     "█ ██████ █ █",
     "█ ██     █ █",
     "█ ████████ █",
     "█          █",
     " █        █ ",
     "  ████████  "]
  else if c = 'こ' then
    ["  ████████  ",
     " █        █ ",
     "█ ████████ █",
     "█          █",
     "█   ████   █",
     "█          █",
     "█ ████████ █",
     "█          █",
     " █        █ ",
     "  ████████  "]
  else if c = 'ん' then
    ["  ████████  ",
     " █        █ ",
     "█   ████   █",
     "█  █    █  █",
     "█  █    █  █",
     "█  █ ██ █  █",
     "█   ████   █",
     "█    ██    █",
     " █        █ ",
     "  ████████  "]
  else if c = 'に' then
    ["  ████████  ",
     " █        █ ",
     "█    ██    █",
     "█    ██    █",
     "█ ████████ █",
     "█    ██    █",
     "█  ██████  █",
     "█          █",
     " █        █ ",
     "  ████████  "]
  else if c = 'ち' then
    ["  ████████  ",
     " █        █ ",
     "█  ██████  █",
     "█     ██   █",
     "█     ██   █",
     "█   ██████ █",
     "█     ██   █",
     "█   ██████ █",
     " █        █ ",
     "  ████████  "]
  else if c = 'は' then
    ["  ████████  ",
     " █        █ ",
     "█ ██  ██   █",
     "█ ██  ██   █",
     "█ ████████ █",
     "█ ██  ██   █",
     "█ ██  ████ █",
     "█ ██    ██ █",
     " █        █ ",
     "  ████████  "]
  else if c = '世' then
    ["  ████████  ",
     " █        █ ",
     "█  █████   █",
     "█  █   █   █",
     "█ ███████  █",
     "█  █   █   █",
     "█  █   █   █",
     "█ ████████ █",
     " █        █ ",
     "  ████████  "]
  else if c = '界' then
    ["  ████████  ",
     " █        █ ",
     "█ ████████ █",
     "█ █  ██  █ █",
     "█ █  ██  █ █",
     "█ ████████ █",
     "█    ██    █",
     "█ ████████ █",
     " █        █ ",
     "  ████████  "]
  else if c = '日' then
    ["  ████████  ",
     " █        █ ",
     "█ ████████ █",
     "█ ██    ██ █",
     "█ ████████ █",
     "█ ██    ██ █",
     "█ ████████ █",
     "█          █",
     " █        █ ",
     "  ████████  "]
  else if c = '本' then
    ["  ████████  ",
     " █        █ ",
     "█    ██    █",
     "█    ██    █",
     "█ ████████ █",
     "█    ██    █",
     "█   ████   █",
     "█  ██  ██  █",
     " █        █ ",
     "  ████████  "]
  else if c = '語' then
    ["  ████████  ",
     " █        █ ",
     "█ ██ ██ ██ █",
     "█ ██ ██ ██ █",
     "█ ████████ █",
     "█ ██    ██ █",
     "█ ████████ █",
     "█ ██    ██ █",
     " █        █ ",
     "  ████████  "]
  else if c = 'の' then
    ["  ████████  ",
     " █        █ ",
     "█   ████   █",
     "█  █    █  █",
     "█  █ ██ █  █",
     "█  █ ██ █  █",
     "█   ████   █",
     "█          █",
     " █        █ ",
     "  ████████  "]
  else if c = 'テ' then
    ["  ████████  ",
     " █        █ ",
     "█ ████████ █",
     "█    ██    █",
     "█    ██    █",
     "█    ██    █",
     "█    ██    █",
     "█    ██    █",
     " █        █ ",
     "  ████████  "]
  else if c = 'ス' then
    ["  ████████  ",
     " █        █ ",
     "█  ██████  █",
     "█     ██   █",
     "█    ██    █",
     "█   ██     █",
     "█  ██      █",
     "█ ██████   █",
     " █        █ ",
     "  ████████  "]
  else if c = 'ト' then
    ["  ████████  ",
     " █        █ ",
     "█   ████   █",
     "█    ██    █",
     "█    ██    █",
     "█    ██    █",
     "█    ██    █",
     "█   ████   █",
     " █        █ ",
     "  ████████  "]
  else
    ["  ████████  ",
     " █        █ ",
     "█   ████   █",
     "█  █    █  █",
     "█  █ " ++ String.mk [c] ++ "  █  █",
     "█  █    █  █",
     "█   ████   █",
     "█          █",
     " █        █ ",
     "  ████████  "]

/-- The expression `charLines[i][row]` guarded by a JavaScript or-default to
the empty string: the row of the glyph, or the empty string when the glyph
is shorter (or when the row itself is empty). -/
def rowOfGlyph (g : List String) (r : Nat) : String := g.getD r ""

/-- One output row of horizontal composition: the row of each glyph (lines
440-445 and 489-496 of the source), with a single space after every glyph
except the last. -/
def composeRow : List (List String) → Nat → String
  | [], _ => ""
  | [g], r => rowOfGlyph g r
  | g :: g2 :: gs, r => rowOfGlyph g r ++ " " ++ composeRow (g2 :: gs) r

/-- `Math.max(...charLines.map(lines => lines.length))` over a list of
glyphs (0 for the empty list; the source only applies it to two or more
glyphs). -/
def maxHeight (gs : List (List String)) : Nat := (gs.map List.length).foldl max 0

/-- The horizontal combination loop of `renderJapaneseWithJisFont`
(japanese-renderer.ts, lines 483-498). -/
def composeUniform (gs : List (List String)) : List String :=
  (List.range (maxHeight gs)).map (fun r => composeRow gs r)

/-- Source `createJapaneseArt` (japanese-renderer.ts, lines 430-450).  For
the empty input, `allPatterns[0].length` reads `length` of `undefined` and
throws a `TypeError`; the thrown path is modelled as `none`.  All patterns
have exactly 10 rows, so `height` is the row count of the first pattern and every
row access is in range. -/
def createJapaneseArt (text : List Char) : Option (List String) :=
  match text.map getJapaneseCharPattern with
  | [] => none
  | p :: ps => some ((List.range p.length).map (fun r => composeRow (p :: ps) r))

/-! ## Hex codes and the codepoint resolver

`jconv` and `encoding-japanese` are external libraries; they are modelled as
oracles returning either a byte list or a thrown error (`Except Unit`). -/

/-- Lowercase hex digit for a value below 16 (as JavaScript
`Number.prototype.toString(16)` produces). -/
def hexChar (n : Nat) : Char :=
  if n < 10 then Char.ofNat (48 + n) else Char.ofNat (87 + n)

/-- Fuel-driven accumulator loop producing the base-16 digits of `n`. -/
def toHexListAux : Nat → Nat → List Char → List Char
  | 0, _, acc => acc
  | fuel + 1, n, acc =>
    if n < 16 then hexChar n :: acc
    else toHexListAux fuel (n / 16) (hexChar (n % 16) :: acc)

/-- JavaScript `n.toString(16)` for a natural number. -/
def jsToString16 (n : Nat) : String := String.mk (toHexListAux (n + 1) n [])

/-- JavaScript `s.toLowerCase()` restricted to its effect on ASCII (the only
characters it is applied to here are hex digits). -/
def jsToLowerStr (s : String) : String := String.mk (s.data.map Char.toLower)

/-- JavaScript `s.padStart(4, '0')`. -/
def padStart4 (s : String) : String :=
  if s.length < 4 then strRep (4 - s.length) '0' ++ s else s

/-- `((b1 << 8) | b2).toString(16).toLowerCase().padStart(4, '0')` — the hex
code built from two bytes everywhere in `unicodeToJisHexCode`. -/
def hexFromBytes (b1 b2 : Nat) : String :=
  padStart4 (jsToLowerStr (jsToString16 ((b1 <<< 8) ||| b2)))

/-- The glyph store: insertion-ordered key/value pairs (a JavaScript `Map`
from hex-code strings to glyph rows). -/
abbrev JisMap := List (String × List String)

/-- `map.has(k)`. -/
def mapHas (m : JisMap) (k : String) : Bool :=
  m.any (fun kv => kv.1 = k)

/-- `map.get(k)` (first — and, by construction, only — entry). -/
def mapGet (m : JisMap) (k : String) : Option (List String) :=
  (m.find? (fun kv => kv.1 = k)).map (fun kv => kv.2)

/-- `map.set(k, v)`: update in place if the key exists, else append. -/
def jsMapSet (m : JisMap) (k : String) (v : List String) : JisMap :=
  if m.any (fun kv => kv.1 = k) then
    m.map (fun kv => if kv.1 = k then (k, v) else kv)
  else m ++ [(k, v)]

/-- `m.isEmpty` for the store (`jisCharacterMap.size === 0`). -/
def mapIsEmpty (m : JisMap) : Bool :=
  match m with
  | [] => true
  | _ :: _ => false

/-- The external conversion libraries, as oracles.  `jconvJIS c` is
`jconv.encode(char, 'JIS')`, `jconvSJIS c` is `jconv.encode(char, 'SJIS')`,
`encConvert enc codes` is `Encoding.convert(codes, {to: enc, from:
'UNICODE'})`; `Except.error` is a thrown exception. -/
structure JpLibs where
  jconvJIS : Char → Except Unit (List Nat)
  jconvSJIS : Char → Except Unit (List Nat)
  encConvert : String → List Nat → Except Unit (List Nat)

/-- The `encoding-japanese` attempt for one target encoding, inside its own
`try`/`catch` (japanese-renderer.ts, lines 117-135). -/
def tryEncScheme (libs : JpLibs) (store : JisMap) (codes : List Nat)
    (enc : String) : Option String :=
  match libs.encConvert enc codes with
  | Except.error _ => none
  | Except.ok arr =>
    if 2 ≤ arr.length then
      let hex := hexFromBytes (arr.getD 0 0) (arr.getD 1 0)
      if mapHas store hex then some hex else none
    else none

/-- Source `unicodeToJisHexCode` (japanese-renderer.ts, lines 80-143).  The
whole body sits in one `try`/`catch` that returns `null`, so an exception
thrown by either `jconv.encode` call aborts the function; the
`encoding-japanese` loop has a per-encoding `catch` that continues. -/
def unicodeToJisHexCode (libs : JpLibs) (store : JisMap) (c : Char) :
    Option String :=
  match libs.jconvJIS c with
  | Except.error _ => none
  | Except.ok jisBytes =>
    let step1 : Option String :=
      if 5 ≤ jisBytes.length then
        let hex := hexFromBytes (jisBytes.getD 3 0) (jisBytes.getD 4 0)
        if mapHas store hex then some hex else none
      else none
    match step1 with
    | some h => some h
    | none =>
      match libs.jconvSJIS c with
      | Except.error _ => none
      | Except.ok sjisBytes =>
        let step2 : Option String :=
          if 2 ≤ sjisBytes.length then
            let hex := hexFromBytes (sjisBytes.getD 0 0) (sjisBytes.getD 1 0)
            if mapHas store hex then some hex else none
          else none
        match step2 with
        | some h => some h
        | none =>
          let codes := utf16Units c
          match tryEncScheme libs store codes "JISX0208" with
          | some h => some h
          | none => tryEncScheme libs store codes "SJIS"

/-- The candidate the 7-bit-escaped JIS scheme produces: skip the 3-byte
escape prefix, combine payload bytes 3 and 4 big-endian. -/
def candJIS (libs : JpLibs) (c : Char) : Option String :=
  match libs.jconvJIS c with
  | Except.error _ => none
  | Except.ok bs =>
    if 5 ≤ bs.length then some (hexFromBytes (bs.getD 3 0) (bs.getD 4 0)) else none

/-- The candidate the Shift-JIS scheme produces: bytes 0 and 1 big-endian. -/
def candSJIS (libs : JpLibs) (c : Char) : Option String :=
  match libs.jconvSJIS c with
  | Except.error _ => none
  | Except.ok bs =>
    if 2 ≤ bs.length then some (hexFromBytes (bs.getD 0 0) (bs.getD 1 0)) else none

/-- The candidate one `encoding-japanese` target encoding produces. -/
def candEnc (libs : JpLibs) (c : Char) (enc : String) : Option String :=
  match libs.encConvert enc (utf16Units c) with
  | Except.error _ => none
  | Except.ok arr =>
    if 2 ≤ arr.length then some (hexFromBytes (arr.getD 0 0) (arr.getD 1 0)) else none

/-- The full candidate sequence in the specified scheme order (schemes that
raise contribute no candidate). -/
def candidateList (libs : JpLibs) (c : Char) : List String :=
  (candJIS libs c).toList ++ (candSJIS libs c).toList ++
    (candEnc libs c "JISX0208").toList ++ (candEnc libs c "SJIS").toList

/-- First candidate that is a key of the store — the claimed rule that a
scheme counts as a hit only when the codepoint is already a key in the
store, otherwise resolution continues. -/
def firstHit (store : JisMap) (cands : List String) : Option String :=
  cands.find? (fun h => mapHas store h)

/-- Source `renderJisCharacter` (japanese-renderer.ts, lines 148-169).
Glyphs are modelled as row lists; the stored string is the rows joined by
newlines, so the falsy-string check `!glyphData` corresponds to the rows
being `[]` or `[""]`. -/
def renderJisCharacter (libs : JpLibs) (fontOk : Bool) (store : JisMap)
    (c : Char) : Option (List String) :=
  if fontOk = false ∨ mapIsEmpty store then none
  else
    match unicodeToJisHexCode libs store c with
    | none => none
    | some hex =>
      match mapGet store hex with
      | none => none
      | some g => if g = [] ∨ g = [""] then none else some g

/-- Source `renderJapaneseWithJisFont` (japanese-renderer.ts, lines
455-501): per-character JIS rendering with pattern fallback, then horizontal
combination (single glyph returned as is). -/
def renderJapaneseWithJisFont (libs : JpLibs) (fontOk : Bool) (store : JisMap)
    (text : List Char) : Option (List String) :=
  if fontOk = false ∨ mapIsEmpty store then none
  else
    let rendered := text.map (fun c =>
      match renderJisCharacter libs fontOk store c with
      | some g => g
      | none => getJapaneseCharPattern c)
    match rendered with
    | [] => none
    | [g] => some g
    | g :: g2 :: gs => some (composeUniform (g :: g2 :: gs))

/-! ## The directional colorizer (`renderJapaneseText`) -/

/-- The gradient library (`gradient-string`), as oracles over row lists:
`line pal s` is `gradient(pal)(s)` and `multiline pal rows` is
`gradient(pal).multiline(rows.join(newline))`, viewed row-wise. -/
structure GradientLib where
  line : List String → String → String
  multiline : List String → List String → List String

/-- The shifted palette of the diagonal case (japanese-renderer.ts, lines
543-546): `palette[Math.floor(colorIndex + shift) % palette.length]` with
`shift = (index / lineCount) * palette.length`, real arithmetic modelled by
rationals. -/
def shiftedPalette (palette : List String) (i n : Nat) : List String :=
  palette.mapIdx (fun j _ =>
    palette.getD
      ((Int.floor ((j : ℚ) + (i : ℚ) / (n : ℚ) * (palette.length : ℚ))).toNat
        % palette.length) "")

/-- The `switch (direction)` of `renderJapaneseText` (japanese-renderer.ts,
lines 524-555), applied to the canvas rows.  Any direction other than
`horizontal` and `diagonal` falls to the default vertical branch. -/
def applyGradientRows (g : GradientLib) (rows : List String)
    (palette : List String) (direction : String) : List String :=
  if direction = "horizontal" then
    rows.map (fun l => if jsTrim l = "" then l else g.line palette l)
  else if direction = "diagonal" then
    rows.mapIdx (fun i l =>
      if jsTrim l = "" then l else g.line (shiftedPalette palette i rows.length) l)
  else g.multiline palette rows

/-- Source `renderJapaneseText` (japanese-renderer.ts, lines 506-558): JIS
font rendering, fallback to `createJapaneseArt` (whose `TypeError` on empty
input propagates as `none`), then directional coloring. -/
def renderJapaneseText (g : GradientLib) (libs : JpLibs) (fontOk : Bool)
    (store : JisMap) (text : List Char) (palette : List String)
    (direction : String) : Option (List String) :=
  match renderJapaneseWithJisFont libs fontOk store text with
  | some rows => some (applyGradientRows g rows palette direction)
  | none =>
    match createJapaneseArt text with
    | none => none
    | some rows => some (applyGradientRows g rows palette direction)

/-! ## The font parser (`parseJisFontData`) -/

/-- ASCII decimal digit. -/
def isDigitCh (c : Char) : Bool := 48 ≤ c.toNat && c.toNat ≤ 57

/-- ASCII hex digit, either case (the `[0-9a-fA-F]` class). -/
def isHexCh (c : Char) : Bool :=
  isDigitCh c || (65 ≤ c.toNat && c.toNat ≤ 70) || (97 ≤ c.toNat && c.toNat ≤ 102)

/-- Lowercase hex digit (`[0-9a-f]`). -/
def isLowerHexCh (c : Char) : Bool :=
  isDigitCh c || (97 ≤ c.toNat && c.toNat ≤ 102)

/-- Match against the entry pattern: decimal digits, one space, hex digits to
the end of the line; returns the hex capture group.  The greedy digit run is
maximal and the next character must be the single space, which reproduces the
regex exactly. -/
def entryMatch (s : String) : Option String :=
  let cs := s.data
  let ds := cs.takeWhile isDigitCh
  let rest := cs.drop ds.length
  if ds.isEmpty then none
  else if rest.take 1 = [' '] && !(rest.drop 1).isEmpty && (rest.drop 1).all isHexCh
  then some (String.mk (rest.drop 1))
  else none

/-- Substring test (JavaScript `line.includes(pat)`). -/
def containsSub : List Char → List Char → Bool
  | [], pat => pat.isEmpty
  | h :: t, pat => pat.isPrefixOf (h :: t) || containsSub t pat

/-- Remove the first occurrence of `pat` (JavaScript
`line.replace(pat, emptyString)` with a plain string pattern). -/
def removeFirstSub : List Char → List Char → List Char
  | [], _ => []
  | h :: t, pat =>
    if pat.isPrefixOf (h :: t) then (h :: t).drop pat.length
    else h :: removeFirstSub t pat

/-- String wrapper for `removeFirstSub`. -/
def jsReplaceOnce (s pat : String) : String :=
  String.mk (removeFirstSub s.data pat.data)

/-- `line.replace(/#/g, ink)`: the global single-character replacement used
when storing glyph rows. -/
def inkConvert (s : String) : String :=
  String.mk (s.data.map (fun c => if c = '#' then '█' else c))

/-- The inner glyph-row loop of `parseJisFontData` (japanese-renderer.ts,
lines 51-62): collect rows until a line containing the end marker, stripping
the continuation and end markers; lines carrying neither marker are skipped.
Returns the collected rows and the lines after the end-marker line. -/
def readGlyph : List String → List String × List String
  | [] => ([], [])
  | l :: rest =>
    if containsSub l.data "@@".data then ([jsReplaceOnce l "$@@"], rest)
    else if containsSub l.data "$@".data then
      let p := readGlyph rest
      (jsReplaceOnce l "$@" :: p.1, p.2)
    else readGlyph rest

/-- The outer entry loop of `parseJisFontData` (japanese-renderer.ts, lines
40-71), fuel-driven (the fuel is the number of remaining lines, which
suffices because every step consumes at least one line). -/
def parseLoopAux : Nat → JisMap → List String → JisMap
  | 0, acc, _ => acc
  | _ + 1, acc, [] => acc
  | fuel + 1, acc, l :: rest =>
    match entryMatch (jsTrim l) with
    | none => parseLoopAux fuel acc rest
    | some hex =>
      let p := readGlyph rest
      if p.1.isEmpty then parseLoopAux fuel acc p.2
      else
        parseLoopAux fuel
          (jsMapSet acc (jsToLowerStr hex) (p.1.map inkConvert)) p.2

/-- JavaScript `fontData.split(newline)` for the one-character separator. -/
def splitLinesAux : List Char → List Char → List String
  | [], cur => [String.mk cur.reverse]
  | c :: rest, cur =>
    if c = '\n' then String.mk cur.reverse :: splitLinesAux rest []
    else splitLinesAux rest (c :: cur)

/-- The line list of the resource. -/
def jsSplitNewline (s : String) : List String := splitLinesAux s.data []

/-- Source `parseJisFontData` (japanese-renderer.ts, lines 30-72): skip
header lines until the first line matching the entry pattern, then run the
entry loop. -/
def parseJisFontData (fontData : String) : JisMap :=
  let ls := (jsSplitNewline fontData).dropWhile (fun l => (entryMatch l).isNone)
  parseLoopAux ls.length [] ls

/-! ## Claims C1 and C3: empty input and uniform composition -/

/-- C1: for the empty input text the render path does not return an empty
canvas — `createJapaneseArt` reads `allPatterns[0].length` of an empty
array, which throws a `TypeError` (modelled as `none`), and
`renderJapaneseText` propagates that exception for every palette and
direction (the JIS path returns `null` for zero characters, so the throwing
fallback is always reached). -/
theorem c1_empty_input_throws (g : GradientLib) (libs : JpLibs) (fontOk : Bool)
    (store : JisMap) (palette : List String) (direction : String) :
    createJapaneseArt ([] : List Char) = none ∧
    renderJapaneseText g libs fontOk store [] palette direction = none := by
  constructor
  · rfl
  · cases fontOk <;> cases store <;> rfl

theorem foldl_max_const (H : Nat) :
    ∀ (xs : List Nat) (a : Nat), xs ≠ [] → (∀ x ∈ xs, x = H) →
      xs.foldl max a = max a H := by
  intro xs
  induction xs with
  | nil => intro a h _; exact absurd rfl h
  | cons x t ih =>
    intro a _ hall
    rw [List.foldl_cons]
    have hx : x = H := hall x (by simp)
    subst hx
    cases t with
    | nil => simp
    | cons y u =>
      rw [ih (max a x) (by simp) (fun z hz => hall z (by simp [hz]))]
      rw [max_assoc, max_self]

theorem getD_mem_of_lt (g : List String) (r : Nat) (h : r < g.length) :
    g.getD r "" ∈ g := by
  rw [List.getD_eq_getElem g "" h]
  exact List.getElem_mem h

/-- Length of one composed row when every glyph has height `H` and is
rectangular: the sum of the glyph widths plus one separator column between
adjacent glyphs. -/
theorem composeRow_length (H : Nat) :
    ∀ (glyphs : List (List String)) (r : Nat), glyphs ≠ [] →
      (∀ g ∈ glyphs, g.length = H) →
      (∀ g ∈ glyphs, ∀ s ∈ g, s.length = (g.headD "").length) →
      r < H →
      (composeRow glyphs r).length
        = (glyphs.map (fun g => (g.headD "").length)).sum + (glyphs.length - 1) := by
  intro glyphs
  induction glyphs with
  | nil => intro r h; exact absurd rfl h
  | cons g t ih =>
    intro r _ hH hrect hr
    have hg : g.length = H := hH g (by simp)
    have hmem : g.getD r "" ∈ g := getD_mem_of_lt g r (by omega)
    have hw : (g.getD r "").length = (g.headD "").length :=
      hrect g (by simp) _ hmem
    cases t with
    | nil =>
      simp only [composeRow, rowOfGlyph, List.map_cons, List.map_nil,
        List.sum_cons, List.sum_nil, List.length_cons, List.length_nil]
      omega
    | cons g2 u =>
      have hrec := ih r (by simp)
        (fun z hz => hH z (by simp [hz]))
        (fun z hz => hrect z (by simp [hz])) hr
      simp only [composeRow, rowOfGlyph] at hrec ⊢
      rw [String.length_append, String.length_append, hrec]
      simp only [List.map_cons, List.sum_cons, List.length_cons]
      have : (" ").length = 1 := rfl
      omega

/-- C3 counterexample: two glyphs of different heights compose to a canvas
whose rows do not all have the same length — the missing row contributes an
empty string, not an equal-width padded row. -/
theorem c3_counterexample :
    composeUniform [["ab"], ["cd", "ef"]] = ["ab cd", " ef"] ∧
    ¬ (∀ r1 ∈ composeUniform [["ab"], ["cd", "ef"]],
        ∀ r2 ∈ composeUniform [["ab"], ["cd", "ef"]], r1.length = r2.length) := by
  constructor
  · rfl
  · decide

/-- C3 amended: uniform composition yields a canvas of height equal to the
maximum glyph row count, a glyph shorter than that height contributes an
empty (zero-width) row, one space separates adjacent glyphs, and every
output row has the same length provided all glyphs share one height and are
rectangular. -/
theorem c3_amended_composition (glyphs : List (List String)) (H : Nat)
    (h1 : glyphs ≠ []) (hH : ∀ g ∈ glyphs, g.length = H)
    (hrect : ∀ g ∈ glyphs, ∀ s ∈ g, s.length = (g.headD "").length) :
    (composeUniform glyphs).length = maxHeight glyphs ∧
    maxHeight glyphs = H ∧
    ∀ row ∈ composeUniform glyphs,
      row.length
        = (glyphs.map (fun g => (g.headD "").length)).sum + (glyphs.length - 1) := by
  have hmax : maxHeight glyphs = H := by
    unfold maxHeight
    rw [foldl_max_const H (glyphs.map List.length)
      0 (by simpa using h1) (by intro x hx; simp at hx; obtain ⟨g, hg, he⟩ := hx; rw [← he]; exact hH g hg)]
    simp
  refine ⟨by simp [composeUniform], hmax, ?_⟩
  intro row hrow
  unfold composeUniform at hrow
  simp only [List.mem_map, List.mem_range] at hrow
  obtain ⟨r, hr, he⟩ := hrow
  rw [← he]
  exact composeRow_length H glyphs r h1 hH hrect (by omega)

/-- C3 amended witness: two equal-height rectangular glyphs. -/
theorem c3_witness :
    (composeUniform [["ab"], ["cd"]]).length = maxHeight [["ab"], ["cd"]] ∧
    maxHeight [["ab"], ["cd"]] = 1 ∧
    ∀ row ∈ composeUniform [["ab"], ["cd"]],
      row.length
        = ([["ab"], ["cd"]].map (fun (g : List String) => (g.headD "").length)).sum
          + ([["ab"], ["cd"]].length - 1) :=
  c3_amended_composition [["ab"], ["cd"]] 1 (by decide) (by decide) (by decide)

/-! ## Claims C2 and C4: resolution order and error handling -/

/-- What the resolver actually does with thrown conversions: an exception
from either `jconv` call aborts resolution (returning unresolved without
trying later schemes), while `encoding-japanese` errors only skip that
encoding; when nothing throws, the result is the first store hit in scheme
order. -/
def c2Amended (libs : JpLibs) (store : JisMap) (c : Char) : Option String :=
  match libs.jconvJIS c with
  | Except.error _ => none
  | Except.ok _ =>
    match firstHit store (candJIS libs c).toList with
    | some h => some h
    | none =>
      match libs.jconvSJIS c with
      | Except.error _ => none
      | Except.ok _ => firstHit store (candidateList libs c)

theorem option_chain_or (o y : Option String) :
    (match o with | some h => some h | none => y) = o.or y := by
  cases o <;> rfl

theorem or_self_or (o z : Option String) : o.or (o.or z) = o.or z := by
  cases o <;> rfl

theorem candJIS_step (libs : JpLibs) (store : JisMap) (c : Char) (bs : List Nat)
    (hJ : libs.jconvJIS c = Except.ok bs) :
    (if 5 ≤ bs.length then
      (if mapHas store (hexFromBytes (bs.getD 3 0) (bs.getD 4 0)) then
        some (hexFromBytes (bs.getD 3 0) (bs.getD 4 0)) else none)
     else none) = firstHit store (candJIS libs c).toList := by
  unfold candJIS firstHit
  rw [hJ]
  by_cases h5 : 5 ≤ bs.length
  · by_cases hh : mapHas store (hexFromBytes (bs.getD 3 0) (bs.getD 4 0)) <;>
      simp [h5, hh]
  · simp [h5]

theorem candSJIS_step (libs : JpLibs) (store : JisMap) (c : Char) (bs : List Nat)
    (hS : libs.jconvSJIS c = Except.ok bs) :
    (if 2 ≤ bs.length then
      (if mapHas store (hexFromBytes (bs.getD 0 0) (bs.getD 1 0)) then
        some (hexFromBytes (bs.getD 0 0) (bs.getD 1 0)) else none)
     else none) = firstHit store (candSJIS libs c).toList := by
  unfold candSJIS firstHit
  rw [hS]
  by_cases h2 : 2 ≤ bs.length
  · by_cases hh : mapHas store (hexFromBytes (bs.getD 0 0) (bs.getD 1 0)) <;>
      simp [h2, hh]
  · simp [h2]

theorem tryEnc_step (libs : JpLibs) (store : JisMap) (c : Char) (enc : String) :
    tryEncScheme libs store (utf16Units c) enc
      = firstHit store (candEnc libs c enc).toList := by
  unfold tryEncScheme candEnc firstHit
  rcases h : libs.encConvert enc (utf16Units c) with e | arr
  · simp
  · by_cases h2 : 2 ≤ arr.length
    · by_cases hh : mapHas store (hexFromBytes (arr.getD 0 0) (arr.getD 1 0)) <;>
        simp [h2, hh]
    · simp [h2]

theorem firstHit_append (store : JisMap) (l1 l2 : List String) :
    firstHit store (l1 ++ l2) = (firstHit store l1).or (firstHit store l2) := by
  unfold firstHit
  exact List.find?_append

theorem resolve_characterization (libs : JpLibs) (store : JisMap) (c : Char) :
    unicodeToJisHexCode libs store c = c2Amended libs store c := by
  unfold unicodeToJisHexCode c2Amended
  rcases hJ : libs.jconvJIS c with e | bs
  · simp
  · simp only []
    rw [candJIS_step libs store c bs hJ]
    simp only [option_chain_or]
    rcases hs1 : firstHit store (candJIS libs c).toList with _ | h1
    · simp only [hs1, Option.none_or]
      rcases hS : libs.jconvSJIS c with e2 | bs2
      · simp
      · simp only []
        rw [candSJIS_step libs store c bs2 hS]
        simp only [option_chain_or, tryEnc_step]
        unfold candidateList
        simp only [firstHit_append, Option.or_assoc, hs1, Option.none_or]
    · simp [hs1]

/-- C2 counterexample: the 7-bit-escaped JIS scheme throws, the Shift-JIS
scheme would produce a store hit; the resolver returns unresolved instead of
continuing with the remaining schemes, because the thrown error is caught by
the one surrounding handler, not per scheme. -/
theorem c2_counterexample :
    unicodeToJisHexCode
      ⟨fun _ => Except.error (), fun _ => Except.ok [0x30, 0x21],
        fun _ _ => Except.error ()⟩
      [("3021", ["█"])] 'あ' = none ∧
    firstHit [("3021", ["█"])]
      (candidateList
        ⟨fun _ => Except.error (), fun _ => Except.ok [0x30, 0x21],
          fun _ _ => Except.error ()⟩ 'あ')
      = some "3021" := by
  constructor
  · rfl
  · rfl

/-- C2 amended: resolution never throws to the caller (it is a total
function into `Option`), and only errors of the secondary conversion library
are treated as per-scheme misses with resolution continuing; an error from
the jconv JIS scheme, or from the jconv Shift-JIS scheme after a JIS miss,
makes resolution return unresolved immediately without trying the remaining
schemes. -/
theorem c2_amended_error_handling (libs : JpLibs) (store : JisMap) (c : Char) :
    unicodeToJisHexCode libs store c = c2Amended libs store c :=
  resolve_characterization libs store c

/-- C4: when the jconv conversions return (the error paths are the subject
of C2), the resolver returns the first candidate, in the fixed scheme order
7-bit-escaped JIS (payload bytes 3 and 4 big-endian), Shift-JIS (bytes 0 and
1), then the secondary library for JISX0208 and SJIS (first two bytes), that
is already a key of the glyph store, and unresolved when all schemes miss. -/
theorem c4_scheme_order (libs : JpLibs) (store : JisMap) (c : Char)
    (bs1 bs2 : List Nat) (hJ : libs.jconvJIS c = Except.ok bs1)
    (hS : libs.jconvSJIS c = Except.ok bs2) :
    unicodeToJisHexCode libs store c = firstHit store (candidateList libs c) := by
  rw [resolve_characterization]
  unfold c2Amended
  rw [hJ, hS]
  simp only []
  rcases hs1 : firstHit store (candJIS libs c).toList with _ | h1
  · simp [hs1]
  · simp only [hs1]
    unfold candidateList
    simp only [firstHit_append, Option.or_assoc]
    rw [hs1]
    rfl

/-- C4 witness: both jconv schemes return; the JIS candidate misses the
store, the Shift-JIS candidate hits. -/
theorem c4_witness :
    unicodeToJisHexCode
      ⟨fun _ => Except.ok [0x1B, 0x24, 0x42, 0x30, 0x22],
        fun _ => Except.ok [0x88, 0xA0], fun _ _ => Except.error ()⟩
      [("88a0", ["█"])] 'あ' = some "88a0" :=
  (c4_scheme_order
      ⟨fun _ => Except.ok [0x1B, 0x24, 0x42, 0x30, 0x22],
        fun _ => Except.ok [0x88, 0xA0], fun _ _ => Except.error ()⟩
      [("88a0", ["█"])] 'あ' [0x1B, 0x24, 0x42, 0x30, 0x22] [0x88, 0xA0]
      rfl rfl).trans (by rfl)

/-! ## Claims C6 and C7: the directional colorizer -/

theorem mapIdx_ignore_elem (l : List α) (f : Nat → β) :
    (l.mapIdx (fun i _ => f i)) = (List.range l.length).map f := by
  apply List.ext_getElem?
  intro i
  simp only [List.getElem?_mapIdx, List.getElem?_map]
  by_cases h : i < l.length
  · rw [List.getElem?_eq_getElem h, List.getElem?_range h]
    rfl
  · rw [List.getElem?_eq_none (by omega), List.getElem?_eq_none (by simpa using h)]
    rfl

/-- The rotation the specification describes for the diagonal direction:
palette index `j` is replaced by index `(j + floor((i / n) * L)) mod L`. -/
def rotationSpec (palette : List String) (i n : Nat) : List String :=
  (List.range palette.length).map (fun j =>
    palette.getD
      ((j + (Int.floor ((i : ℚ) / (n : ℚ) * (palette.length : ℚ))).toNat)
        % palette.length) "")

theorem shiftedPalette_eq_rotation (palette : List String) (i n : Nat) :
    shiftedPalette palette i n = rotationSpec palette i n := by
  unfold shiftedPalette rotationSpec
  rw [mapIdx_ignore_elem]
  apply List.map_congr_left
  intro j _
  congr 2
  have hs : 0 ≤ (i : ℚ) / (n : ℚ) * (palette.length : ℚ) := by positivity
  rw [Int.floor_nat_add j ((i : ℚ) / (n : ℚ) * (palette.length : ℚ))]
  rw [Int.toNat_add (by exact_mod_cast Nat.zero_le j) (Int.floor_nonneg.mpr hs)]
  simp

/-- C6: in diagonal mode, row `i` of `n` rows is the horizontal blend of the
row-specific palette obtained by rotating the palette indices by
`floor((i / n) * L)` modulo `L`, and blank rows pass through unmodified. -/
theorem c6_diagonal_rotation (g : GradientLib) (rows palette : List String)
    (i : Nat) (h : i < rows.length) :
    (applyGradientRows g rows palette "diagonal").getD i ""
      = (if jsTrim (rows.getD i "") = "" then rows.getD i ""
         else g.line (rotationSpec palette i rows.length) (rows.getD i "")) := by
  unfold applyGradientRows
  rw [if_neg (by decide), if_pos rfl]
  rw [List.getD_eq_getElem?_getD, List.getElem?_mapIdx,
    List.getElem?_eq_getElem h]
  rw [List.getD_eq_getElem?_getD, List.getElem?_eq_getElem h]
  simp only [Option.map_some', Option.getD_some]
  rw [shiftedPalette_eq_rotation]

/-- C6 witness: two rows, two colors, row index 0 (rotation by zero). -/
theorem c6_witness :
    (applyGradientRows ⟨fun p l => joinSep "," p ++ l, fun _ rs => rs⟩
        ["ab", "cd"] ["x", "y"] "diagonal").getD 0 ""
      = "x,yab" := by
  rw [c6_diagonal_rotation ⟨fun p l => joinSep "," p ++ l, fun _ rs => rs⟩
    ["ab", "cd"] ["x", "y"] 0 (by decide)]
  rw [if_neg (by decide)]
  have h0 : ((0 : ℚ) / ((["ab", "cd"] : List String).length : ℚ)
      * ((["x", "y"] : List String).length : ℚ)) = 0 := by norm_num
  unfold rotationSpec
  rw [show ((0 : Nat) : ℚ) = (0 : ℚ) from rfl, h0]
  norm_num
  rfl

/-- C7: colorization leaves whitespace-only rows unchanged in all three
directions; for the vertical (default) branch this relies on the gradient
collaborator preserving blank rows, which is the behavior the specification
assigns to it. -/
theorem c7_blank_rows (g : GradientLib) (rows palette : List String)
    (direction : String) (i : Nat) (h : i < rows.length)
    (hOracle : ∀ (pal rs : List String) (j : Nat), j < rs.length →
      jsTrim (rs.getD j "") = "" → (g.multiline pal rs).getD j "" = rs.getD j "")
    (hblank : jsTrim (rows.getD i "") = "") :
    (applyGradientRows g rows palette direction).getD i "" = rows.getD i "" := by
  unfold applyGradientRows
  by_cases hH : direction = "horizontal"
  · rw [if_pos hH]
    rw [List.getD_eq_getElem?_getD, List.getElem?_map, List.getElem?_eq_getElem h]
    rw [List.getD_eq_getElem?_getD, List.getElem?_eq_getElem h] at hblank ⊢
    simp only [Option.map_some', Option.getD_some] at hblank ⊢
    rw [if_pos hblank]
  · rw [if_neg hH]
    by_cases hD : direction = "diagonal"
    · rw [if_pos hD]
      rw [List.getD_eq_getElem?_getD, List.getElem?_mapIdx, List.getElem?_eq_getElem h]
      rw [List.getD_eq_getElem?_getD, List.getElem?_eq_getElem h] at hblank ⊢
      simp only [Option.map_some', Option.getD_some] at hblank ⊢
      rw [if_pos hblank]
    · rw [if_neg hD]
      exact hOracle palette rows i h hblank

/-- C7 witness: a blank row passes through the default vertical branch with
a blank-preserving gradient collaborator. -/
theorem c7_witness :
    (applyGradientRows ⟨fun _ l => l, fun _ rs => rs⟩ ["  "] ["x"] "vertical").getD 0 ""
      = ("  " : String) :=
  c7_blank_rows ⟨fun _ l => l, fun _ rs => rs⟩ ["  "] ["x"] "vertical" 0
    (by decide) (fun _ _ _ _ _ => rfl) (by decide)

/-! ## Claim C8: codepoint format of store keys and resolver candidates -/

/-- A nonempty string of lowercase hex digits. -/
def isLowerHexStr (s : String) : Bool := !s.data.isEmpty && s.data.all isLowerHexCh

theorem toLower_of_not_upper {ch : Char} (h : ¬(65 ≤ ch.toNat ∧ ch.toNat ≤ 90)) :
    Char.toLower ch = ch := by
  unfold Char.toLower
  exact if_neg h

theorem char_eq_of_toNat_eq {ch : Char} {n : Nat} (h : ch.toNat = n) :
    ch = Char.ofNat n := by
  rw [← h, Char.ofNat_toNat]

theorem char_toNat_ofNat_of_lt {n : Nat} (h : n < 0xD800) :
    (Char.ofNat n).toNat = n := by
  unfold Char.ofNat
  rw [dif_pos (Or.inl h)]
  rfl

theorem toLower_hex {ch : Char} (h : isHexCh ch = true) :
    isLowerHexCh (Char.toLower ch) = true := by
  simp only [isHexCh, isDigitCh, Bool.or_eq_true, Bool.and_eq_true,
    decide_eq_true_eq] at h
  rcases h with (hd | hu) | hl
  · rw [toLower_of_not_upper (by omega)]
    simp only [isLowerHexCh, isDigitCh, Bool.or_eq_true, Bool.and_eq_true,
      decide_eq_true_eq]
    omega
  · have hup : Char.toLower ch = Char.ofNat (ch.toNat + 32) := by
      unfold Char.toLower
      rw [if_pos (by omega)]
    rw [hup]
    have ht : (Char.ofNat (ch.toNat + 32)).toNat = ch.toNat + 32 :=
      char_toNat_ofNat_of_lt (by omega)
    simp only [isLowerHexCh, isDigitCh, Bool.or_eq_true, Bool.and_eq_true,
      decide_eq_true_eq, ht]
    omega
  · rw [toLower_of_not_upper (by omega)]
    simp only [isLowerHexCh, isDigitCh, Bool.or_eq_true, Bool.and_eq_true,
      decide_eq_true_eq]
    omega

theorem hexChar_lower : ∀ n, n < 16 → isLowerHexCh (hexChar n) = true := by
  decide

theorem toHexListAux_lower :
    ∀ (fuel n : Nat) (acc : List Char), (∀ ch ∈ acc, isLowerHexCh ch = true) →
      ∀ ch ∈ toHexListAux fuel n acc, isLowerHexCh ch = true := by
  intro fuel
  induction fuel with
  | zero => intro n acc hacc ch hch; exact hacc ch hch
  | succ fuel ih =>
    intro n acc hacc ch hch
    unfold toHexListAux at hch
    by_cases h16 : n < 16
    · rw [if_pos h16] at hch
      rcases List.mem_cons.mp hch with he | hm
      · rw [he]; exact hexChar_lower n h16
      · exact hacc ch hm
    · rw [if_neg h16] at hch
      refine ih (n / 16) _ ?_ ch hch
      intro d hd
      rcases List.mem_cons.mp hd with he | hm
      · rw [he]; exact hexChar_lower (n % 16) (Nat.mod_lt n (by norm_num))
      · exact hacc d hm

theorem toHexListAux_ne_nil :
    ∀ (fuel n : Nat) (acc : List Char), acc ≠ [] → toHexListAux fuel n acc ≠ [] := by
  intro fuel
  induction fuel with
  | zero => intro n acc h; exact h
  | succ fuel ih =>
    intro n acc h
    unfold toHexListAux
    by_cases h16 : n < 16
    · rw [if_pos h16]; exact List.cons_ne_nil _ _
    · rw [if_neg h16]; exact ih (n / 16) _ (List.cons_ne_nil _ _)

theorem toHexListAux_split :
    ∀ (fuel n : Nat) (acc : List Char),
      toHexListAux fuel n acc = toHexListAux fuel n [] ++ acc := by
  intro fuel
  induction fuel with
  | zero => intro n acc; rfl
  | succ fuel ih =>
    intro n acc
    unfold toHexListAux
    by_cases h16 : n < 16
    · rw [if_pos h16, if_pos h16]; rfl
    · rw [if_neg h16, if_neg h16, ih (n / 16) [hexChar (n % 16)],
        ih (n / 16) (hexChar (n % 16) :: acc), List.append_assoc]
      rfl

theorem toHexListAux_len_le :
    ∀ (fuel : Nat) (n k : Nat), n < 16 ^ k → 0 < k →
      (toHexListAux fuel n []).length ≤ k := by
  intro fuel
  induction fuel with
  | zero => intro n k _ _; simp [toHexListAux]
  | succ fuel ih =>
    intro n k hn hk
    unfold toHexListAux
    by_cases h16 : n < 16
    · rw [if_pos h16]; simpa using hk
    · rw [if_neg h16, toHexListAux_split]
      have hk2 : 2 ≤ k := by
        by_contra hlt
        have : k = 1 := by omega
        rw [this] at hn
        simp at hn
        omega
      have hdiv : n / 16 < 16 ^ (k - 1) := by
        rw [Nat.div_lt_iff_lt_mul (by norm_num)]
        calc n < 16 ^ k := hn
        _ = 16 ^ (k - 1) * 16 := by
          rw [← Nat.pow_succ]
          congr 1
          omega
      have := ih (n / 16) (k - 1) hdiv (by omega)
      rw [List.length_append]
      simp only [List.length_cons, List.length_nil]
      omega

theorem jsToString16_props (n : Nat) (h : n < 65536) :
    (jsToString16 n).data ≠ [] ∧ (∀ ch ∈ (jsToString16 n).data, isLowerHexCh ch = true) ∧
      (jsToString16 n).data.length ≤ 4 := by
  unfold jsToString16
  refine ⟨?_, ?_, ?_⟩
  · show toHexListAux (n + 1) n [] ≠ []
    unfold toHexListAux
    by_cases h16 : n < 16
    · rw [if_pos h16]; exact List.cons_ne_nil _ _
    · rw [if_neg h16]; exact toHexListAux_ne_nil n (n / 16) _ (List.cons_ne_nil _ _)
  · exact toHexListAux_lower (n + 1) n [] (by intro ch hch; cases hch)
  · exact toHexListAux_len_le (n + 1) n 4 (by norm_num; omega) (by norm_num)

theorem not_isEmpty_of_ne_nil {α : Type} (l : List α) (h : l ≠ []) :
    (!l.isEmpty) = true := by
  cases l with
  | nil => exact absurd rfl h
  | cons a t => rfl

theorem jsToLowerStr_of_lower (s : String)
    (h : ∀ ch ∈ s.data, isLowerHexCh ch = true) : jsToLowerStr s = s := by
  unfold jsToLowerStr
  have he : s.data.map Char.toLower = s.data.map id := by
    apply List.map_congr_left
    intro ch hch
    have hlow := h ch hch
    apply toLower_of_not_upper
    simp only [isLowerHexCh, isDigitCh, Bool.or_eq_true, Bool.and_eq_true,
      decide_eq_true_eq] at hlow
    omega
  rw [he, List.map_id]

theorem padStart4_props (s : String) (h1 : s.data ≠ [])
    (h2 : ∀ ch ∈ s.data, isLowerHexCh ch = true) (h3 : s.data.length ≤ 4) :
    (padStart4 s).length = 4 ∧ isLowerHexStr (padStart4 s) = true := by
  unfold padStart4
  have hlen : s.length = s.data.length := rfl
  by_cases h4 : s.length < 4
  · rw [if_pos h4]
    have hrep : (strRep (4 - s.length) '0').length = 4 - s.length := by
      show (List.replicate (4 - s.length) '0').length = 4 - s.length
      exact List.length_replicate _ _
    constructor
    · rw [String.length_append]
      omega
    · unfold isLowerHexStr
      rw [String.data_append, Bool.and_eq_true]
      constructor
      · apply not_isEmpty_of_ne_nil
        intro hEq
        exact h1 (List.append_eq_nil.mp hEq).2
      · rw [List.all_append, Bool.and_eq_true]
        constructor
        · rw [List.all_eq_true]
          intro ch hch
          have := List.eq_of_mem_replicate hch
          rw [this]
          decide
        · exact List.all_eq_true.mpr h2
  · rw [if_neg h4]
    refine ⟨by omega, ?_⟩
    unfold isLowerHexStr
    rw [Bool.and_eq_true]
    exact ⟨not_isEmpty_of_ne_nil _ h1, List.all_eq_true.mpr h2⟩

/-- Every hex code built from two bytes is a lowercase hex string of exactly
four digits. -/
theorem hexFromBytes_format (b1 b2 : Nat) (h1 : b1 < 256) (h2 : b2 < 256) :
    (hexFromBytes b1 b2).length = 4 ∧ isLowerHexStr (hexFromBytes b1 b2) = true := by
  unfold hexFromBytes
  have hv : (b1 <<< 8) ||| b2 < 65536 := by
    have e1 : b1 <<< 8 = b1 * 2 ^ 8 := Nat.shiftLeft_eq b1 8
    have e2 : b1 * 2 ^ 8 < 2 ^ 16 := by omega
    have e3 : b2 < 2 ^ 16 := by omega
    have := Nat.or_lt_two_pow (x := b1 <<< 8) (y := b2) (n := 16) (by omega) e3
    omega
  obtain ⟨hne, hlow, hlen⟩ := jsToString16_props _ hv
  rw [jsToLowerStr_of_lower _ hlow]
  exact padStart4_props _ hne hlow hlen

theorem ne_nil_of_not_isEmpty {α : Type} {l : List α}
    (h : (!l.isEmpty) = true) : l ≠ [] := by
  cases l with
  | nil => cases h
  | cons a t => exact List.cons_ne_nil a t

theorem entryMatch_hex {s : String} {hex : String} (h : entryMatch s = some hex) :
    hex.data ≠ [] ∧ ∀ ch ∈ hex.data, isHexCh ch = true := by
  unfold entryMatch at h
  by_cases hds : (s.data.takeWhile isDigitCh).isEmpty
  · rw [if_pos hds] at h; cases h
  · rw [if_neg hds] at h
    by_cases hc : ((s.data.drop (s.data.takeWhile isDigitCh).length).take 1 = [' '] &&
        !((s.data.drop (s.data.takeWhile isDigitCh).length).drop 1).isEmpty &&
        ((s.data.drop (s.data.takeWhile isDigitCh).length).drop 1).all isHexCh) = true
    · rw [if_pos hc] at h
      cases h
      rw [Bool.and_eq_true, Bool.and_eq_true] at hc
      obtain ⟨⟨_, hne⟩, hall⟩ := hc
      refine ⟨?_, ?_⟩
      · show (s.data.drop (s.data.takeWhile isDigitCh).length).drop 1 ≠ []
        exact ne_nil_of_not_isEmpty hne
      · intro ch hch
        exact List.all_eq_true.mp hall ch hch
    · rw [if_neg hc] at h; cases h

/-- Keys of a map after `set` are the new key or keys already present. -/
theorem jsMapSet_keys_pred (P : String → Prop) (m : JisMap) (k : String)
    (v : List String) (hm : ∀ kv ∈ m, P kv.1) (hk : P k) :
    ∀ kv ∈ jsMapSet m k v, P kv.1 := by
  intro kv hkv
  unfold jsMapSet at hkv
  by_cases ha : m.any (fun kv => kv.1 = k)
  · rw [if_pos ha] at hkv
    rcases List.mem_map.mp hkv with ⟨kv0, hkv0, he⟩
    by_cases he0 : kv0.1 = k
    · rw [if_pos he0] at he
      rw [← he]
      exact hk
    · rw [if_neg he0] at he
      rw [← he]
      exact hm kv0 hkv0
  · rw [if_neg ha] at hkv
    rcases List.mem_append.mp hkv with hl | hr
    · exact hm kv hl
    · rcases List.mem_singleton.mp hr with rfl
      exact hk

theorem key_prop_of_entryMatch {l hex : String}
    (h : entryMatch (jsTrim l) = some hex) :
    isLowerHexStr (jsToLowerStr hex) = true := by
  obtain ⟨hne, hhex⟩ := entryMatch_hex h
  unfold isLowerHexStr jsToLowerStr
  rw [Bool.and_eq_true]
  constructor
  · apply not_isEmpty_of_ne_nil
    show hex.data.map Char.toLower ≠ []
    simp only [ne_eq, List.map_eq_nil_iff]
    exact hne
  · rw [List.all_eq_true]
    intro ch hch
    rcases List.mem_map.mp hch with ⟨ch0, hch0, he⟩
    rw [← he]
    exact toLower_hex (hhex ch0 hch0)

theorem parseLoopAux_keys :
    ∀ (fuel : Nat) (acc : JisMap) (ls : List String),
      (∀ kv ∈ acc, isLowerHexStr kv.1 = true) →
      ∀ kv ∈ parseLoopAux fuel acc ls, isLowerHexStr kv.1 = true := by
  intro fuel
  induction fuel with
  | zero => intro acc ls hacc kv hkv; exact hacc kv hkv
  | succ fuel ih =>
    intro acc ls hacc kv hkv
    cases ls with
    | nil => exact hacc kv hkv
    | cons l rest =>
      unfold parseLoopAux at hkv
      cases hm : entryMatch (jsTrim l) with
      | none =>
        simp only [hm] at hkv
        exact ih acc rest hacc kv hkv
      | some hex =>
        simp only [hm] at hkv
        by_cases hgl : (readGlyph rest).1.isEmpty
        · rw [if_pos hgl] at hkv
          exact ih acc _ hacc kv hkv
        · rw [if_neg hgl] at hkv
          refine ih _ _ ?_ kv hkv
          exact jsMapSet_keys_pred (fun k => isLowerHexStr k = true) acc _ _ hacc
            (key_prop_of_entryMatch hm)

/-- C8 counterexample: a resource entry whose hex code has three digits is
stored under the three-digit key, not zero-padded to four. -/
theorem c8_counterexample :
    (parseJisFontData "1 3b1\nxx$@\n$@@").map Prod.fst = ["3b1"] ∧
    ¬ (("3b1" : String).length = 4) := by
  constructor
  · decide
  · decide

/-- The byte contract of the conversion libraries: every produced value is a
byte. -/
def BytesBounded (libs : JpLibs) : Prop :=
  (∀ c bs, libs.jconvJIS c = Except.ok bs → ∀ b ∈ bs, b < 256) ∧
  (∀ c bs, libs.jconvSJIS c = Except.ok bs → ∀ b ∈ bs, b < 256) ∧
  (∀ e cs bs, libs.encConvert e cs = Except.ok bs → ∀ b ∈ bs, b < 256)

theorem getD_mem_of_lt' {α : Type} (l : List α) (d : α) (r : Nat)
    (h : r < l.length) : l.getD r d ∈ l := by
  rw [List.getD_eq_getElem l d h]
  exact List.getElem_mem h

/-- C8 amended: every key the font parser stores is a nonempty lowercase hex
string (of whatever length the resource supplies, not forced to four
digits), and every candidate the resolver produces from byte-valued
conversions is a lowercase hex string of exactly four digits. -/
theorem c8_amended_codepoint_format :
    (∀ (d : String), ∀ kv ∈ parseJisFontData d, isLowerHexStr kv.1 = true) ∧
    (∀ (libs : JpLibs) (c : Char), BytesBounded libs →
      ∀ h ∈ candidateList libs c, isLowerHexStr h = true ∧ h.length = 4) := by
  constructor
  · intro d kv hkv
    unfold parseJisFontData at hkv
    exact parseLoopAux_keys _ [] _ (by intro kv h; cases h) kv hkv
  · intro libs c hB h hmem
    unfold candidateList at hmem
    have hfmt : ∀ b1 b2 : Nat, b1 < 256 → b2 < 256 → h = hexFromBytes b1 b2 →
        isLowerHexStr h = true ∧ h.length = 4 := by
      intro b1 b2 hb1 hb2 he
      obtain ⟨hl, hs⟩ := hexFromBytes_format b1 b2 hb1 hb2
      rw [he]
      exact ⟨hs, hl⟩
    rcases List.mem_append.mp hmem with hmem1 | hmem4
    rcases List.mem_append.mp hmem1 with hmem2 | hmem3
    rcases List.mem_append.mp hmem2 with hJ | hS
    · -- candJIS
      unfold candJIS at hJ
      cases hje : libs.jconvJIS c with
      | error e => simp only [hje] at hJ; simp at hJ
      | ok bs =>
        simp only [hje] at hJ
        by_cases h5 : 5 ≤ bs.length
        · rw [if_pos h5, Option.toList_some] at hJ
          rcases List.mem_singleton.mp hJ with rfl
          exact hfmt _ _
            (hB.1 c bs hje _ (getD_mem_of_lt' bs 0 3 (by omega)))
            (hB.1 c bs hje _ (getD_mem_of_lt' bs 0 4 (by omega))) rfl
        · rw [if_neg h5] at hJ; simp at hJ
    · -- candSJIS
      unfold candSJIS at hS
      cases hje : libs.jconvSJIS c with
      | error e => simp only [hje] at hS; simp at hS
      | ok bs =>
        simp only [hje] at hS
        by_cases h2 : 2 ≤ bs.length
        · rw [if_pos h2, Option.toList_some] at hS
          rcases List.mem_singleton.mp hS with rfl
          exact hfmt _ _
            (hB.2.1 c bs hje _ (getD_mem_of_lt' bs 0 0 (by omega)))
            (hB.2.1 c bs hje _ (getD_mem_of_lt' bs 0 1 (by omega))) rfl
        · rw [if_neg h2] at hS; simp at hS
    · -- candEnc JISX0208
      unfold candEnc at hmem3
      cases hje : libs.encConvert "JISX0208" (utf16Units c) with
      | error e => simp only [hje] at hmem3; simp at hmem3
      | ok arr =>
        simp only [hje] at hmem3
        by_cases h2 : 2 ≤ arr.length
        · rw [if_pos h2, Option.toList_some] at hmem3
          rcases List.mem_singleton.mp hmem3 with rfl
          exact hfmt _ _
            (hB.2.2 _ _ arr hje _ (getD_mem_of_lt' arr 0 0 (by omega)))
            (hB.2.2 _ _ arr hje _ (getD_mem_of_lt' arr 0 1 (by omega))) rfl
        · rw [if_neg h2] at hmem3; simp at hmem3
    · -- candEnc SJIS
      unfold candEnc at hmem4
      cases hje : libs.encConvert "SJIS" (utf16Units c) with
      | error e => simp only [hje] at hmem4; simp at hmem4
      | ok arr =>
        simp only [hje] at hmem4
        by_cases h2 : 2 ≤ arr.length
        · rw [if_pos h2, Option.toList_some] at hmem4
          rcases List.mem_singleton.mp hmem4 with rfl
          exact hfmt _ _
            (hB.2.2 _ _ arr hje _ (getD_mem_of_lt' arr 0 0 (by omega)))
            (hB.2.2 _ _ arr hje _ (getD_mem_of_lt' arr 0 1 (by omega))) rfl
        · rw [if_neg h2] at hmem4; simp at hmem4

/-- C8 amended witness: a concrete parsed key and a concrete candidate. -/
theorem c8_witness :
    isLowerHexStr ("3b1" : String) = true ∧
    (isLowerHexStr ("0102" : String) = true ∧ ("0102" : String).length = 4) := by
  constructor
  · exact c8_amended_codepoint_format.1 "1 3b1\nxx$@\n$@@" ("3b1", ["xx", ""])
      (by decide)
  · exact c8_amended_codepoint_format.2
      ⟨fun _ => Except.ok [0, 0, 0, 1, 2], fun _ => Except.ok [6, 7],
        fun _ _ => Except.error ()⟩ 'a'
      ⟨fun c bs h => by cases h; decide,
       fun c bs h => by cases h; decide,
       fun e cs bs h => by cases h⟩
      "0102" (by decide)

end OML